import Mathlib

/-!
Verification development for the `ducky` interactive pair-programming CLI
(`src/ducky/ducky.py`, `src/ducky/crumb.py`, `src/ducky/config.py`).

The Python code is shallowly embedded: pure helpers become Lean functions on
`String`/`List Char`, the interactive controller becomes an explicit step
function on a state record, and the effectful collaborators (subprocess
spawning, the chat model backend) become oracle parameters, so every
definition stays executable.
-/

namespace Ducky

/-! ## Python string primitives

Python `str.strip` / `str.rstrip` / `str.lower` / `str.split()` /
`str.splitlines` restricted to ASCII text, modelled over `List Char`. -/

/-- ASCII whitespace recognised by Python's `str.strip`/`str.split`. -/
def wsChar (c : Char) : Bool :=
  c == ' ' || c == '\t' || c == '\n' || c == '\r' || c == '\x0b' || c == '\x0c'

def lstripChars (l : List Char) : List Char := l.dropWhile wsChar

def rstripChars (l : List Char) : List Char := (l.reverse.dropWhile wsChar).reverse

/-- Python `s.strip()`. -/
def pyStrip (s : String) : String := String.mk (rstripChars (lstripChars s.toList))

/-- Python `s.rstrip()`. -/
def pyRstrip (s : String) : String := String.mk (rstripChars s.toList)

/-- ASCII lower-casing, Python `s.lower()` on ASCII text. -/
def lowerChar (c : Char) : Char :=
  if 65 ≤ c.toNat ∧ c.toNat ≤ 90 then Char.ofNat (c.toNat + 32) else c

def pyLower (s : String) : String := String.mk (s.toList.map lowerChar)

def startsWithL : List Char → List Char → Bool
  | _, [] => true
  | [], _ :: _ => false
  | c :: cs, p :: ps => c == p && startsWithL cs ps

/-- Python `s.startswith(pre)`. -/
def pyStartsWith (s pre : String) : Bool := startsWithL s.toList pre.toList

/-- Split a character list at every newline; always returns at least one part. -/
def splitLinesL : List Char → List (List Char)
  | [] => [[]]
  | c :: cs =>
    let rest := splitLinesL cs
    if c = '\n' then [] :: rest
    else
      match rest with
      | [] => [[c]]
      | r :: rs => (c :: r) :: rs

/-- Split a character list on whitespace runs, discarding empty parts:
Python `s.split()` with no argument. -/
def splitOnWs : List Char → List (List Char)
  | [] => [[]]
  | c :: cs =>
    let rest := splitOnWs cs
    if wsChar c then [] :: rest
    else
      match rest with
      | [] => [[c]]
      | r :: rs => (c :: r) :: rs

def pySplit (s : String) : List String :=
  ((splitOnWs s.toList).filter (fun l => l ≠ [])).map (fun l => String.mk l)

/-! ## Command Extractor

`RubberDuck._extract_command` (src/ducky/ducky.py lines 400-432).
The response text is stripped and split into lines; scanning toggles an
in-fenced-block flag on lines starting with three backticks, collects the
first non-empty (trimmed) line encountered either inside the block or in
free text, then truncates the collected line at its first semicolon and
returns `none` instead of an empty command. -/

/-- Python `content.strip().splitlines()`: the line list the extractor scans.
Python `"".splitlines()` is `[]`, captured by the emptiness guard. -/
def responseLines (content : String) : List String :=
  let t := pyStrip content
  if t = "" then [] else (splitLinesL t.toList).map (fun l => String.mk l)

/-- The scanning loop of `_extract_command`: returns the single collected
line (the code breaks as soon as `command_lines` receives one entry). -/
def extractLoop : List String → Bool → Option String
  | [], _ => none
  | line :: rest, inBlock =>
    let stripped := pyStrip line
    if pyStartsWith stripped "```" then
      if inBlock then none else extractLoop rest true
    else if stripped ≠ "" then some stripped
    else extractLoop rest inBlock

/-- Python `command[:command.find(";")].strip()` when a semicolon occurs. -/
def truncSemi (c : String) : String :=
  if ';' ∈ c.toList then pyStrip (String.mk (c.toList.takeWhile (fun a => a ≠ ';')))
  else c

/-- The post-processing tail of `_extract_command`: semicolon truncation
followed by `return command or None`. -/
def finishCommand (c : String) : Option String :=
  let c' := truncSemi c
  if c' = "" then none else some c'

/-- Embeds `RubberDuck._extract_command`. -/
def extract_command (content : String) : Option String :=
  match extractLoop (responseLines content) false with
  | none => none
  | some c => finishCommand c

example : extract_command "" = none := by decide
example : extract_command "ls -la" = some "ls -la" := by decide
example : extract_command "ls -la\nThis lists files." = some "ls -la" := by decide
example : extract_command "```\nls -la\npwd\n```" = some "ls -la" := by decide
example : extract_command "```\n```" = none := by decide
example : extract_command "echo a; echo b" = some "echo a" := by decide
example : extract_command ";ls" = none := by decide

/-! ## Data model

`Message` dictionaries, `AssistantResult`, `ShellResult`
(src/ducky/ducky.py lines 60-73, 297-299). -/

inductive Role where
  | system
  | user
  | assistant
deriving DecidableEq, Repr

structure Msg where
  role : Role
  content : String
deriving DecidableEq, Repr

structure AssistantResultM where
  content : String
  command : Option String
deriving DecidableEq, Repr

structure ShellResult where
  command : String
  stdout : String
  stderr : String
  returncode : Int
deriving DecidableEq, Repr

/-- What spawning `command` through the host shell produces: decoded output
streams and the process return code (`None` before the process is reaped).
The subprocess facility is abstracted as an oracle `String → ProcOutcome`. -/
structure ProcOutcome where
  stdout : String
  stderr : String
  returncode : Option Int
deriving DecidableEq, Repr

/-! ## Shell Executor

`RubberDuck.run_shell_command` (lines 386-398) spawns unconditionally —
there is no empty-command special case — and maps the process return code
through Python's `process.returncode or 0`.  The returned `Bool` records
that a process was spawned. -/

def run_shell_command (os : String → ProcOutcome) (command : String) :
    Bool × ShellResult :=
  let p := os command
  (true, ⟨command, p.stdout, p.stderr, p.returncode.getD 0⟩)

/-- The assistant-side fold content built by `run_shell_and_print`
(lines 249-258): optional right-trimmed stdout, `[stderr]`-tagged
right-trimmed stderr, exit-status annotation for nonzero return codes,
no-output marker when nothing else was collected, joined with blank lines. -/
def fold_shell_output (r : ShellResult) : String :=
  let combined : List String :=
    (if pyStrip r.stdout ≠ "" then [pyRstrip r.stdout] else []) ++
    (if pyStrip r.stderr ≠ "" then ["[stderr]\n" ++ pyRstrip r.stderr] else []) ++
    (if r.returncode ≠ 0 then ["(exit status " ++ toString r.returncode ++ ")"] else [])
  let combined := if combined = [] then ["(command produced no output)"] else combined
  String.intercalate "\n\n" combined

structure RunOutcome where
  spawned : Bool
  result : Option ShellResult
  history : List Msg
deriving DecidableEq, Repr

/-- Embeds `run_shell_and_print` (lines 233-258) with a history list present:
the empty command short-circuits (printing `No command provided.`) without
spawning and without touching history; otherwise the command runs and the
synthetic user/assistant pair is appended. -/
def run_shell_and_print (os : String → ProcOutcome) (command : String)
    (history : List Msg) : RunOutcome :=
  if command = "" then ⟨false, none, history⟩
  else
    let r := (run_shell_command os command).2
    ⟨true, some r,
      history ++ [⟨Role.user, "!" ++ command⟩, ⟨Role.assistant, fold_shell_output r⟩]⟩

example :
    run_shell_and_print (fun _ => ⟨"hi\n", "", some 0⟩) "echo hi" [] =
      ⟨true, some ⟨"echo hi", "hi\n", "", 0⟩,
        [⟨Role.user, "!echo hi"⟩, ⟨Role.assistant, "hi"⟩]⟩ := by decide

example : fold_shell_output ⟨"c", "", "", 2⟩ = "(exit status 2)" := by decide
example : fold_shell_output ⟨"c", "", "", 0⟩ = "(command produced no output)" := by decide
example : fold_shell_output ⟨"c", "a\n", "b\n", 1⟩ = "a\n\n[stderr]\nb\n\n(exit status 1)" := by decide

/-! ## Conversation state and the model backend call

`RubberDuck` keeps `system_prompt` and the message list. Crumb metadata
(the script registry loaded by `load_crumbs`) and the chat backend are pure
oracle parameters gathered in `World`; the backend reply is a function of
the exact message sequence sent. The interactive entry point (`ducky`,
lines 1315-1317) constructs `RubberDuck` with `command_mode=True`,
`quick=False` and no code context, which is the configuration embedded
here. -/

structure CrumbM where
  name : String
  path : String
  description : Option String
  poll : Bool
  pollType : Option String
  pollPrompt : Option String
deriving DecidableEq, Repr

structure World where
  model : List Msg → String
  os : String → ProcOutcome
  crumbs : List CrumbM
  base : String
  stream : Nat → String

structure DuckState where
  systemPrompt : String
  messages : List Msg
deriving DecidableEq, Repr

/-- Embeds `RubberDuck.update_system_prompt` (lines 302-333): rebuild the system
prompt from the current one plus the crumb descriptions, and write it into
the first system message (inserting one if the head is not a system
message). -/
def buildSystemPrompt (crumbs : List CrumbM) (base : String) : String :=
  let lines := [base] ++
    (if crumbs.isEmpty then []
     else ["\nCrumbs are simple scripts you can run with bash, uv, or bun.", "Crumbs:"] ++
       crumbs.map (fun c => "- " ++ c.name ++ ": " ++ c.description.getD "no description"))
  String.intercalate "\n" lines

def setSystemMessage (sys : String) (msgs : List Msg) : List Msg :=
  match msgs with
  | ⟨Role.system, _⟩ :: rest => ⟨Role.system, sys⟩ :: rest
  | _ => ⟨Role.system, sys⟩ :: msgs

/-- The command-mode instruction appended to the user content
(lines 352-355; the two adjacent Python string literals concatenate
without a space, hence `elsDo`). -/
def instructionText : String :=
  "Return a single bash command that accomplishes the task. Unless user wants something elsDo not include explanations or formatting other than the command itself."

/-- Embeds `RubberDuck.send_prompt` (lines 335-384) with `code=None`,
`quick=False`: strip the prompt, refresh the system message, append the
command-mode instruction when requested, append the user message, obtain
the assistant reply, append it, and extract a command in command mode. -/
def send_prompt (w : World) (st : DuckState) (prompt : String)
    (commandMode : Bool) : DuckState × AssistantResultM :=
  let userContent := pyStrip prompt
  let sys := buildSystemPrompt w.crumbs st.systemPrompt
  let msgs := setSystemMessage sys st.messages
  let userContent :=
    if commandMode then
      (if userContent = "" then instructionText
       else userContent ++ "\n\n" ++ instructionText)
    else userContent
  let msgs := msgs ++ [⟨Role.user, userContent⟩]
  let content := w.model msgs
  let msgs := msgs ++ [⟨Role.assistant, content⟩]
  (⟨sys, msgs⟩, ⟨content, if commandMode then extract_command content else none⟩)

/-- Embeds `RubberDuck.clear_history` (lines 476-480). -/
def clear_history (msgs : List Msg) : List Msg :=
  match msgs with
  | [] => []
  | m :: _ => [m]

/-! ## Command Lifecycle Controller

`InlineInterface` working state and its `_process_text` dispatch
(lines 483-706). User-visible effects that the claims mention are recorded
as `Event`s. -/

inductive Event where
  | notice (text : String)
  | executed (cmd : String)
  | prompted (prompt : String) (suppressed : Bool)
deriving DecidableEq, Repr

structure UIState where
  duck : DuckState
  lastCommand : Option String
  pendingCommand : Option String
  lastShellOutput : Bool
deriving DecidableEq, Repr

/-- Embeds `InlineInterface.__init__` on top of a fresh `RubberDuck` (lines
296-299, 493-497): history holds the single system message, no last or
pending command, no shell output pending explanation. -/
def initState (w : World) : UIState :=
  { duck := { systemPrompt := w.base, messages := [⟨Role.system, w.base⟩] },
    lastCommand := none, pendingCommand := none, lastShellOutput := false }

/-- Embeds `InlineInterface._run_last_command` (lines 617-632). Python tests
`if not self.last_command`, so a missing or empty last command prints the
notice; otherwise the command runs, the fold is appended, the
output-available flag is set and both pending and last commands clear. -/
def runLastStep (w : World) (s : UIState) : UIState × List Event :=
  match s.lastCommand with
  | none => (s, [Event.notice "No suggested command available yet."])
  | some cmd =>
    if cmd = "" then (s, [Event.notice "No suggested command available yet."])
    else
      let out := run_shell_and_print w.os cmd s.duck.messages
      ({ s with duck := { s.duck with messages := out.history },
                lastShellOutput := true, pendingCommand := none, lastCommand := none },
       [Event.executed cmd])

def explainRequest (lastContent : String) : String :=
  "The user ran a shell command above. Summarize the key findings from the output, highlight problems if any, and suggest next steps. Do NOT suggest a shell command or code snippet.\n\n"
    ++ lastContent

/-- Embeds `InlineInterface._explain_last_command` (lines 708-724): bail out with
a notice — leaving the output-available flag untouched — unless the history
has at least two entries and ends with an assistant message; otherwise send
the analysis prompt (suggestion output suppressed) and clear the flag. -/
def explainStep (w : World) (s : UIState) : UIState × List Event :=
  if s.duck.messages.length < 2 then
    (s, [Event.notice "No shell output to explain yet."])
  else
    match s.duck.messages.getLast? with
    | none => (s, [Event.notice "No shell output to explain yet."])
    | some last =>
      if last.role ≠ Role.assistant then
        (s, [Event.notice "No shell output to explain yet."])
      else
        let p := explainRequest last.content
        let duck' := (send_prompt w s.duck p true).1
        ({ s with duck := duck', lastShellOutput := false },
         [Event.prompted p true])

/-- The `!command` branch of `_process_text` (lines 682-695): run the rest
of the line as a literal shell command (the empty rest short-circuits
inside `run_shell_and_print`), then set the output-available flag and clear
the pending command; the last suggested command is left as it was. -/
def bangStep (w : World) (s : UIState) (cmd : String) : UIState × List Event :=
  let out := run_shell_and_print w.os cmd s.duck.messages
  ({ s with duck := { s.duck with messages := out.history },
            lastShellOutput := true, pendingCommand := none },
   if cmd = "" then [Event.notice "No command provided."] else [Event.executed cmd])

/-- The free-text branch of `_process_text` (lines 697-706):
`run_single_prompt` in command mode, then record the extracted command as
both last and pending suggestion. -/
def freeStep (w : World) (s : UIState) (t : String) : UIState × List Event :=
  let r := send_prompt w s.duck t true
  ({ s with duck := r.1, lastCommand := r.2.command, pendingCommand := r.2.command },
   [Event.prompted t false])

/-- Embeds `InlineInterface._clear_history` (lines 825-829). -/
def clearStep (s : UIState) : UIState × List Event :=
  ({ duck := { systemPrompt := s.duck.systemPrompt,
               messages := clear_history s.duck.messages },
     lastCommand := none, pendingCommand := none, lastShellOutput := false },
   [Event.notice "Conversation history cleared."])

/-! ### Polling

`_handle_poll_command` (lines 831-896) and the two polling loops
(lines 1089-1254). A polling session appends one user/assistant pair to
the shared history per analysis round via `send_prompt` with
`command_mode=False` and never touches the pending/last-command fields.
The number of analysis rounds (the loop runs until Ctrl-C) is an input
parameter; for continuous polling the output drained from the child
process between analyses comes from the `stream` oracle. -/

/-- The argument-parsing loop of `_handle_poll_command` (lines 852-865):
yields the `-p` prompt override, or an error when an interval value fails
to parse as an integer (which aborts the whole command). -/
def parsePollTail : List String → Except Unit (Option String)
  | [] => Except.ok none
  | [_] => Except.ok none
  | a :: b :: tail =>
    if a = "-i" ∨ a = "--interval" then
      match b.toInt? with
      | some _ => parsePollTail tail
      | none => Except.error ()
    else if a = "-p" ∨ a = "--prompt" then
      Except.ok (some (String.intercalate " " (b :: tail)))
    else parsePollTail (b :: tail)

/-- Script output assembled by `_interval_polling` (lines 1150-1154). -/
def intervalScriptOutput (r : ShellResult) : String :=
  let base := if pyStrip r.stdout ≠ "" then r.stdout else "(no output)"
  if pyStrip r.stderr ≠ "" then base ++ "\n[stderr]\n" ++ r.stderr else base

def pollRequest (pollPrompt scriptOutput : String) : String :=
  pollPrompt ++ "\n\nScript output:\n" ++ scriptOutput

/-- Embeds `_interval_polling` for a given number of rounds: each round runs the
crumb script and analyses its output with `command_mode=False`. -/
def intervalRounds (w : World) (crumb : CrumbM) (pollPrompt : String) :
    Nat → DuckState → DuckState
  | 0, st => st
  | Nat.succ k, st =>
    let r := (run_shell_command w.os crumb.path).2
    let st' := (send_prompt w st (pollRequest pollPrompt (intervalScriptOutput r)) false).1
    intervalRounds w crumb pollPrompt k st'

/-- Embeds `_continuous_polling` analysis rounds: round `j` analyses the output
newly drained from the child process, provided by the `stream` oracle. -/
def continuousRounds (w : World) (pollPrompt : String) :
    Nat → Nat → DuckState → DuckState
  | 0, _, st => st
  | Nat.succ k, j, st =>
    let st' := (send_prompt w st (pollRequest pollPrompt (w.stream j)) false).1
    continuousRounds w pollPrompt k (j + 1) st'

/-- Embeds `_handle_poll_command` with `rounds` analysis iterations. -/
def pollStep (w : World) (s : UIState) (text : String) (rounds : Nat) :
    UIState × List Event :=
  match pySplit text with
  | _ :: name :: tail =>
    match parsePollTail tail with
    | Except.error _ => (s, [Event.notice "Invalid interval value."])
    | Except.ok override =>
      match w.crumbs.find? (fun c => c.name = name) with
      | none => (s, [Event.notice "Crumb not found."])
      | some crumb =>
        let pollPrompt := override.getD (crumb.pollPrompt.getD "Analyze this output.")
        let duck' :=
          if crumb.pollType = some "continuous" then
            continuousRounds w pollPrompt rounds 0 s.duck
          else intervalRounds w crumb pollPrompt rounds s.duck
        ({ s with duck := duck' }, [])
  | _ => (s, [Event.notice "Usage: /poll <crumb-name> [-i interval] [-p prompt]"])

/-! ### Input dispatch and the controller step -/

/-- The outcome of `_process_text`'s if-chain on the trimmed input text
(lines 634-697), in source order. `/model`, `/local`, `/cloud`, `/help`,
`/crumbs` and `/stop-poll` are grouped as `meta`: they print, switch the
backend model or save config, none of which touches the history or the
command-lifecycle fields. -/
inductive Dispatch where
  | empty
  | runCmd
  | clear
  | meta
  | poll (stripped : String)
  | bang (cmd : String)
  | free (stripped : String)
deriving DecidableEq, Repr

def dispatch (text : String) : Dispatch :=
  let s := pyStrip text
  let low := pyLower s
  if s = "" then Dispatch.empty
  else if low = ":run" ∨ low = "/run" then Dispatch.runCmd
  else if low = "/clear" ∨ low = "/reset" then Dispatch.clear
  else if low = "/model" ∨ low = "/local" ∨ low = "/cloud" ∨ low = "/help"
       ∨ low = "/crumbs" ∨ low = "/stop-poll" then Dispatch.meta
  else if pyStartsWith s "/poll" then Dispatch.poll s
  else if pyStartsWith s "!" then Dispatch.bang (pyStrip (s.drop 1))
  else Dispatch.free s

/-- One interaction of the prompt loop (`InlineInterface.run`,
lines 553-574): a submitted line (with the round count consumed if it
starts a polling session), the Ctrl-R rerun shortcut, or the Ctrl-S
copy-to-clipboard shortcut. -/
inductive Input where
  | line (text : String) (pollRounds : Nat)
  | ctrlR
  | ctrlS

/-- The controller transition: `_process_text` plus the two keyboard
shortcuts. -/
def step (w : World) (s : UIState) : Input → UIState × List Event
  | Input.ctrlR => runLastStep w s
  | Input.ctrlS => (s, [Event.notice "copy last command"])
  | Input.line t k =>
    match dispatch t with
    | Dispatch.empty =>
      if s.pendingCommand.getD "" ≠ "" then runLastStep w s
      else if s.lastShellOutput then explainStep w s
      else (s, [Event.notice "Nothing to run yet."])
    | Dispatch.runCmd => runLastStep w s
    | Dispatch.clear => clearStep s
    | Dispatch.meta => (s, [])
    | Dispatch.poll stripped => pollStep w s stripped k
    | Dispatch.bang cmd => bangStep w s cmd
    | Dispatch.free stripped => freeStep w s stripped

/-- States reachable from a fresh interactive session. -/
inductive Reachable (w : World) : UIState → Prop where
  | init : Reachable w (initState w)
  | next (s : UIState) (i : Input) : Reachable w s → Reachable w (step w s i).1

/-! ## Placeholder Substitution -/

def isVarCharB (c : Char) : Bool := c.isAlphanum || c == '_'

/-- Modelled from the spec: the repository snapshot under `src/` does not
contain the placeholder-substitution routine used by the crumb replay
feature (`src/ducky/crumb.py` only stores command templates), so the spec
§4.5 algorithm is embedded from its words. Parse a variable token directly
after a `$`: either a braced nonempty name or a bare nonempty run of
alphanumeric/underscore characters; returns the name, the token text after
the dollar, and the remaining characters. -/
def parseVarAt (l : List Char) : Option (String × String × List Char) :=
  match l with
  | [] => none
  | c :: rest =>
    if c = '\x7b' then
      let name := rest.takeWhile isVarCharB
      match rest.dropWhile isVarCharB with
      | d :: rest'' =>
        if d = '\x7d' ∧ name ≠ [] then
          some (String.mk name, String.mk (c :: (name ++ [d])), rest'')
        else none
      | [] => none
    else
      let name := l.takeWhile isVarCharB
      if name = [] then none
      else some (String.mk name, String.mk name, l.dropWhile isVarCharB)

/-- Modelled from the spec: step 1 of §4.5 — scan the template left to
right collecting every variable-token name in occurrence order (fuelled by
the character count; each token consumes at least one character). -/
def collectVarsAux : Nat → List Char → List String
  | 0, _ => []
  | fuel + 1, l =>
    match l with
    | [] => []
    | c :: rest =>
      if c = '$' then
        match parseVarAt rest with
        | some (n, _, r) => n :: collectVarsAux fuel r
        | none => collectVarsAux fuel rest
      else collectVarsAux fuel rest

def collectVars (l : List Char) : List String := collectVarsAux l.length l

/-- Distinct names in order of first appearance. -/
def firstAppearanceAux : Nat → List String → List String
  | 0, _ => []
  | _ + 1, [] => []
  | fuel + 1, x :: xs => x :: firstAppearanceAux fuel (xs.filter (fun y => y ≠ x))

def firstAppearance (l : List String) : List String := firstAppearanceAux l.length l

/-- The distinct variable names of a template, in order of first
appearance (spec §4.5 steps 1-2). -/
def templateVars (template : String) : List String :=
  firstAppearance (collectVars template.toList)

/-- Modelled from the spec: step 3 of §4.5 — re-scan and substitute every
token: a mapped name is replaced by its mapped argument, an unmapped name
by the environment value when set, otherwise the token text stays. -/
def substApplyAux (env : String → Option String)
    (mapping : List (String × String)) : Nat → List Char → List Char
  | 0, _ => []
  | fuel + 1, l =>
    match l with
    | [] => []
    | c :: rest =>
      if c = '$' then
        match parseVarAt rest with
        | some (n, tok, r) =>
          let replacement :=
            match mapping.find? (fun p => p.1 = n) with
            | some p => p.2
            | none =>
              match env n with
              | some v => v
              | none => "$" ++ tok
          replacement.toList ++ substApplyAux env mapping fuel r
        | none => c :: substApplyAux env mapping fuel rest
      else c :: substApplyAux env mapping fuel rest

/-- Modelled from the spec: the full §4.5 contract — map the i-th distinct
name to the i-th positional argument (`zip` drops excess arguments and
leaves names beyond the argument count unmapped) and substitute every
occurrence. -/
def substituteTemplate (env : String → Option String) (template : String)
    (args : List String) : String :=
  let mapping := (templateVars template).zip args
  String.mk (substApplyAux env mapping template.toList.length template.toList)

example :
    substituteTemplate (fun _ => none) "cp $\x7bsrc\x7d $\x7bdst\x7d $\x7bsrc\x7d.bak"
      ["a.txt", "b.txt"] = "cp a.txt b.txt a.txt.bak" := by decide

example :
    substituteTemplate (fun n => if n = "HOME_DIR" then some "/x" else none)
      "echo $HOME_DIR" [] = "echo /x" := by decide

example :
    substituteTemplate (fun _ => none) "echo $HOME_DIR" [] = "echo $HOME_DIR" := by decide

/-! ## Lemmas about the string primitives -/

theorem mk_eq_empty_iff (l : List Char) : String.mk l = "" ↔ l = [] := by
  constructor
  · intro h
    have := congrArg String.data h
    simpa using this
  · intro h
    rw [h]

theorem append_ne_empty_left (a b : String) (h : a ≠ "") : a ++ b ≠ "" := by
  intro hc
  apply h
  have h2 : a.data ++ b.data = [] := by
    have := congrArg String.data hc
    simpa [String.data_append] using this
  rcases List.append_eq_nil.mp h2 with ⟨ha, -⟩
  cases a with
  | mk d =>
    rw [show d = [] from ha]

theorem rstripChars_eq_nil_iff (l : List Char) :
    rstripChars l = [] ↔ ∀ a ∈ l, wsChar a := by
  simp [rstripChars, List.dropWhile_eq_nil_iff, List.mem_reverse]

theorem lstripChars_eq_nil_iff (l : List Char) :
    lstripChars l = [] ↔ ∀ a ∈ l, wsChar a := by
  simp [lstripChars, List.dropWhile_eq_nil_iff]

theorem stripChars_ne_nil_mono {l : List Char}
    (h : rstripChars (lstripChars l) ≠ []) : rstripChars l ≠ [] := by
  intro hc
  apply h
  have hall := (rstripChars_eq_nil_iff l).mp hc
  have h1 : lstripChars l = [] := (lstripChars_eq_nil_iff l).mpr hall
  rw [h1]
  rfl

theorem pyRstrip_ne_empty {s : String} (h : pyStrip s ≠ "") : pyRstrip s ≠ "" := by
  simp only [pyStrip, pyRstrip, ne_eq, mk_eq_empty_iff] at h ⊢
  exact stripChars_ne_nil_mono h

theorem mem_rstripChars_sub {a : Char} {l : List Char} (h : a ∈ rstripChars l) :
    a ∈ l := by
  simp only [rstripChars, List.mem_reverse] at h
  exact List.mem_reverse.mp ((List.dropWhile_sublist _).subset h)

theorem mem_lstripChars_sub {a : Char} {l : List Char} (h : a ∈ lstripChars l) :
    a ∈ l :=
  (List.dropWhile_sublist _).subset h

theorem mem_pyStrip_sub {a : Char} {s : String} (h : a ∈ (pyStrip s).toList) :
    a ∈ s.toList :=
  mem_lstripChars_sub (mem_rstripChars_sub h)

/-! ## The history-fold content, stated the way the spec describes it -/

def joinPieces (sep : String) (pieces : List String) : String :=
  String.intercalate sep (pieces.filter (fun p => p ≠ ""))

/-- The assistant fold content as the spec words it: the concatenation, in
order, of the trimmed stdout if non-empty, `[stderr]` plus a newline plus
the trimmed stderr if non-empty, an exit-status annotation if the return
code is nonzero, and the no-output marker if none of those produced text
("trimmed" here is Python `rstrip`, the trimming the code applies to the
emitted text). -/
def foldContentSpec (r : ShellResult) : String :=
  let stdoutPart := if pyStrip r.stdout ≠ "" then pyRstrip r.stdout else ""
  let stderrPart :=
    if pyStrip r.stderr ≠ "" then "[stderr]\n" ++ pyRstrip r.stderr else ""
  let statusPart :=
    if r.returncode ≠ 0 then "(exit status " ++ toString r.returncode ++ ")" else ""
  if stdoutPart = "" ∧ stderrPart = "" ∧ statusPart = "" then
    "(command produced no output)"
  else joinPieces "\n\n" [stdoutPart, stderrPart, statusPart]

theorem fold_shell_output_eq_spec (r : ShellResult) :
    fold_shell_output r = foldContentSpec r := by
  unfold fold_shell_output foldContentSpec joinPieces
  by_cases h1 : pyStrip r.stdout = "" <;> by_cases h2 : pyStrip r.stderr = "" <;>
    by_cases h3 : r.returncode = 0 <;>
      simp [h1, h2, h3, pyRstrip_ne_empty,
        append_ne_empty_left "[stderr]\n" _ (by decide),
        append_ne_empty_left ("(exit status " ++ toString r.returncode) ")"
          (append_ne_empty_left "(exit status " _ (by decide)),
        String.intercalate, String.intercalate.go]

/-! ## Lemmas about the Command Extractor -/

theorem splitLinesL_ne_nil (l : List Char) : splitLinesL l ≠ [] := by
  cases l with
  | nil => simp [splitLinesL]
  | cons c cs =>
    simp only [splitLinesL]
    split
    · simp
    · cases h : splitLinesL cs <;> simp

theorem splitLinesL_no_newline :
    ∀ (l : List Char), ∀ p ∈ splitLinesL l, ('\n' : Char) ∉ p := by
  intro l
  induction l with
  | nil =>
    intro p hp
    simp only [splitLinesL, List.mem_singleton] at hp
    simp [hp]
  | cons c cs ih =>
    intro p hp
    simp only [splitLinesL] at hp
    by_cases hc : c = '\n'
    · rw [if_pos hc] at hp
      rcases List.mem_cons.mp hp with h | h
      · simp [h]
      · exact ih p h
    · rw [if_neg hc] at hp
      cases hrest : splitLinesL cs with
      | nil => exact absurd hrest (splitLinesL_ne_nil cs)
      | cons r rs =>
        rw [hrest] at hp
        rcases List.mem_cons.mp hp with h | h
        · subst h
          intro hmem
          rcases List.mem_cons.mp hmem with h' | h'
          · exact hc h'.symm
          · exact ih r (by rw [hrest]; exact List.mem_cons_self r rs) h'
        · exact ih p (by rw [hrest]; exact List.mem_cons_of_mem r h)

theorem extractLoop_some :
    ∀ (lines : List String) (b : Bool) (c : String),
      extractLoop lines b = some c → ∃ line ∈ lines, c = pyStrip line := by
  intro lines
  induction lines with
  | nil => intro b c h; simp [extractLoop] at h
  | cons line rest ih =>
    intro b c h
    simp only [extractLoop] at h
    by_cases hf : pyStartsWith (pyStrip line) "```" = true
    · rw [if_pos hf] at h
      cases b with
      | true => simp at h
      | false =>
        obtain ⟨l', hl', hc⟩ := ih true c h
        exact ⟨l', List.mem_cons_of_mem line hl', hc⟩
    · rw [if_neg hf] at h
      by_cases hne : pyStrip line ≠ ""
      · rw [if_pos hne] at h
        exact ⟨line, List.mem_cons_self line rest, (Option.some.inj h).symm⟩
      · rw [if_neg hne] at h
        obtain ⟨l', hl', hc⟩ := ih b c h
        exact ⟨l', List.mem_cons_of_mem line hl', hc⟩

theorem finishCommand_some_ne_empty {c c' : String}
    (h : finishCommand c = some c') : c' ≠ "" := by
  simp only [finishCommand] at h
  by_cases he : truncSemi c = ""
  · rw [if_pos he] at h
    simp at h
  · rw [if_neg he] at h
    rw [← Option.some.inj h]
    exact he

theorem finishCommand_some_no_semi {c c' : String}
    (h : finishCommand c = some c') : (';' : Char) ∉ c'.toList := by
  simp only [finishCommand] at h
  by_cases he : truncSemi c = ""
  · rw [if_pos he] at h
    simp at h
  · rw [if_neg he] at h
    rw [← Option.some.inj h]
    simp only [truncSemi]
    by_cases hs : (';' : Char) ∈ c.toList
    · rw [if_pos hs]
      intro hmem
      have := List.mem_takeWhile_imp (mem_pyStrip_sub hmem)
      simp at this
    · rw [if_neg hs]
      exact hs

theorem finishCommand_some_sub {c c' : String} {a : Char}
    (h : finishCommand c = some c') (hm : a ∈ c'.toList) : a ∈ c.toList := by
  simp only [finishCommand] at h
  by_cases he : truncSemi c = ""
  · rw [if_pos he] at h
    simp at h
  · rw [if_neg he] at h
    rw [← Option.some.inj h] at hm
    simp only [truncSemi] at hm
    by_cases hs : (';' : Char) ∈ c.toList
    · rw [if_pos hs] at hm
      exact (List.takeWhile_sublist _).subset (mem_pyStrip_sub hm)
    · rw [if_neg hs] at hm
      exact hm

theorem extract_command_some_shape {content c : String}
    (h : extract_command content = some c) :
    ∃ c₀, extractLoop (responseLines content) false = some c₀ ∧
      finishCommand c₀ = some c := by
  simp only [extract_command] at h
  cases hl : extractLoop (responseLines content) false with
  | none => rw [hl] at h; simp at h
  | some c₀ => rw [hl] at h; exact ⟨c₀, rfl, h⟩

theorem mem_responseLines_no_newline {content : String} {line : String}
    (h : line ∈ responseLines content) : ('\n' : Char) ∉ line.toList := by
  simp only [responseLines] at h
  by_cases ht : pyStrip content = ""
  · rw [if_pos ht] at h
    simp at h
  · rw [if_neg ht] at h
    obtain ⟨p, hp, hline⟩ := List.mem_map.mp h
    rw [← hline]
    exact splitLinesL_no_newline _ p hp

theorem extract_command_ne_empty {content c : String}
    (h : extract_command content = some c) : c ≠ "" := by
  obtain ⟨c₀, -, hf⟩ := extract_command_some_shape h
  exact finishCommand_some_ne_empty hf

/-! ## Controller invariants -/

/-- The history shape maintained by every operation: a unique system
message at index 0. -/
def MsgInv (msgs : List Msg) : Prop :=
  ∃ c rest, msgs = ⟨Role.system, c⟩ :: rest ∧ ∀ m ∈ rest, m.role ≠ Role.system

/-- Says `new` is `old` with the system-message content possibly rewritten in
place and zero or more non-system messages appended: no reorder, no
delete. -/
def GrowsFrom (old new : List Msg) : Prop :=
  ∃ c suf, new = ⟨Role.system, c⟩ :: (old.tail ++ suf) ∧
    ∀ m ∈ suf, m.role ≠ Role.system

theorem growsFrom_refl {old : List Msg} (h : MsgInv old) : GrowsFrom old old := by
  obtain ⟨c, rest, he, -⟩ := h
  exact ⟨c, [], by simp [he], by simp⟩

theorem msgInv_of_grows {old new : List Msg} (h : MsgInv old)
    (hg : GrowsFrom old new) : MsgInv new := by
  obtain ⟨c, rest, he, hr⟩ := h
  obtain ⟨c', suf, he', hs⟩ := hg
  refine ⟨c', old.tail ++ suf, he', ?_⟩
  intro m hm
  rcases List.mem_append.mp hm with h1 | h2
  · apply hr
    rw [he] at h1
    simpa using h1
  · exact hs m h2

theorem growsFrom_trans {a b c : List Msg} (h1 : GrowsFrom a b)
    (h2 : GrowsFrom b c) : GrowsFrom a c := by
  obtain ⟨c1, s1, e1, r1⟩ := h1
  obtain ⟨c2, s2, e2, r2⟩ := h2
  refine ⟨c2, s1 ++ s2, ?_, ?_⟩
  · rw [e2, e1]
    simp
  · intro m hm
    rcases List.mem_append.mp hm with h | h
    exacts [r1 m h, r2 m h]

theorem growsFrom_cons_append {old : List Msg} {c : String} {rest : List Msg}
    (he : old = ⟨Role.system, c⟩ :: rest) (c' u a : String) :
    GrowsFrom old
      (⟨Role.system, c'⟩ :: (rest ++ [⟨Role.user, u⟩, ⟨Role.assistant, a⟩])) := by
  refine ⟨c', [⟨Role.user, u⟩, ⟨Role.assistant, a⟩], ?_, ?_⟩
  · rw [he]
    rfl
  · intro m hm
    rcases List.mem_cons.mp hm with h | h
    · simp [h]
    · rcases List.mem_cons.mp h with h' | h'
      · simp [h']
      · simp at h'

/-- The user-message content `send_prompt` appends for a given prompt. -/
def promptUserContent (p : String) (cm : Bool) : String :=
  let uc := pyStrip p
  if cm then (if uc = "" then instructionText else uc ++ "\n\n" ++ instructionText)
  else uc

theorem send_prompt_messages (w : World) (st : DuckState) (p : String) (cm : Bool)
    {c : String} {rest : List Msg} (he : st.messages = ⟨Role.system, c⟩ :: rest) :
    (send_prompt w st p cm).1.messages =
      ⟨Role.system, buildSystemPrompt w.crumbs st.systemPrompt⟩ ::
        (rest ++
          [⟨Role.user, promptUserContent p cm⟩,
           ⟨Role.assistant,
             w.model
               (⟨Role.system, buildSystemPrompt w.crumbs st.systemPrompt⟩ ::
                 (rest ++ [⟨Role.user, promptUserContent p cm⟩]))⟩]) := by
  simp [send_prompt, he, setSystemMessage, promptUserContent]

theorem send_prompt_grows (w : World) (st : DuckState) (p : String) (cm : Bool)
    (h : MsgInv st.messages) :
    GrowsFrom st.messages (send_prompt w st p cm).1.messages := by
  obtain ⟨c, rest, he, -⟩ := h
  rw [send_prompt_messages w st p cm he]
  exact growsFrom_cons_append he _ _ _

theorem run_shell_and_print_grows (os : String → ProcOutcome) (cmd : String)
    {hist : List Msg} (h : MsgInv hist) :
    GrowsFrom hist (run_shell_and_print os cmd hist).history := by
  obtain ⟨c, rest, he, hr⟩ := h
  by_cases hc : cmd = ""
  · simp only [run_shell_and_print, if_pos hc]
    exact growsFrom_refl ⟨c, rest, he, hr⟩
  · have hn : (run_shell_and_print os cmd hist).history =
        ⟨Role.system, c⟩ ::
          (rest ++
            [⟨Role.user, "!" ++ cmd⟩,
             ⟨Role.assistant, fold_shell_output (run_shell_command os cmd).2⟩]) := by
      simp [run_shell_and_print, if_neg hc, he]
    rw [hn]
    exact growsFrom_cons_append he _ _ _

theorem intervalRounds_grows (w : World) (crumb : CrumbM) (pp : String) :
    ∀ (k : Nat) (st : DuckState), MsgInv st.messages →
      GrowsFrom st.messages (intervalRounds w crumb pp k st).messages := by
  intro k
  induction k with
  | zero => intro st h; exact growsFrom_refl h
  | succ n ih =>
    intro st h
    have h1 := send_prompt_grows w st
      (pollRequest pp (intervalScriptOutput (run_shell_command w.os crumb.path).2)) false h
    have h2 := msgInv_of_grows h h1
    exact growsFrom_trans h1 (ih _ h2)

theorem continuousRounds_grows (w : World) (pp : String) :
    ∀ (k j : Nat) (st : DuckState), MsgInv st.messages →
      GrowsFrom st.messages (continuousRounds w pp k j st).messages := by
  intro k
  induction k with
  | zero => intro j st h; exact growsFrom_refl h
  | succ n ih =>
    intro j st h
    have h1 := send_prompt_grows w st (pollRequest pp (w.stream j)) false h
    have h2 := msgInv_of_grows h h1
    exact growsFrom_trans h1 (ih _ _ h2)

theorem pollStep_grows (w : World) (s : UIState) (text : String) (k : Nat)
    (h : MsgInv s.duck.messages) :
    GrowsFrom s.duck.messages (pollStep w s text k).1.duck.messages := by
  simp only [pollStep]
  split
  · split
    · exact growsFrom_refl h
    · split
      · exact growsFrom_refl h
      · split
        · exact continuousRounds_grows w _ k 0 s.duck h
        · exact intervalRounds_grows w _ _ k s.duck h
  · exact growsFrom_refl h

theorem pollStep_fields (w : World) (s : UIState) (text : String) (k : Nat) :
    (pollStep w s text k).1.lastCommand = s.lastCommand ∧
    (pollStep w s text k).1.pendingCommand = s.pendingCommand ∧
    (pollStep w s text k).1.lastShellOutput = s.lastShellOutput := by
  simp only [pollStep]
  split
  · split
    · exact ⟨rfl, rfl, rfl⟩
    · split
      · exact ⟨rfl, rfl, rfl⟩
      · exact ⟨rfl, rfl, rfl⟩
  · exact ⟨rfl, rfl, rfl⟩

theorem runLastStep_grows (w : World) (s : UIState) (h : MsgInv s.duck.messages) :
    GrowsFrom s.duck.messages (runLastStep w s).1.duck.messages := by
  simp only [runLastStep]
  cases s.lastCommand with
  | none => exact growsFrom_refl h
  | some cmd =>
    by_cases hc : cmd = ""
    · simp only [if_pos hc]
      exact growsFrom_refl h
    · simp only [if_neg hc]
      exact run_shell_and_print_grows w.os cmd h

theorem explainStep_grows (w : World) (s : UIState) (h : MsgInv s.duck.messages) :
    GrowsFrom s.duck.messages (explainStep w s).1.duck.messages := by
  simp only [explainStep]
  by_cases hl : s.duck.messages.length < 2
  · simp only [if_pos hl]
    exact growsFrom_refl h
  · simp only [if_neg hl]
    cases s.duck.messages.getLast? with
    | none => exact growsFrom_refl h
    | some last =>
      by_cases hr : last.role ≠ Role.assistant
      · simp only [if_pos hr]
        exact growsFrom_refl h
      · simp only [if_neg hr]
        exact send_prompt_grows w s.duck _ true h

theorem bangStep_grows (w : World) (s : UIState) (cmd : String)
    (h : MsgInv s.duck.messages) :
    GrowsFrom s.duck.messages (bangStep w s cmd).1.duck.messages :=
  run_shell_and_print_grows w.os cmd h

theorem freeStep_grows (w : World) (s : UIState) (t : String)
    (h : MsgInv s.duck.messages) :
    GrowsFrom s.duck.messages (freeStep w s t).1.duck.messages :=
  send_prompt_grows w s.duck t true h

/-- Inputs that hit the `/clear` / `/reset` branch. -/
def isClearInput : Input → Prop
  | Input.line t _ => dispatch t = Dispatch.clear
  | Input.ctrlR => False
  | Input.ctrlS => False

theorem step_grows (w : World) (s : UIState) (i : Input)
    (h : MsgInv s.duck.messages) (hnc : ¬ isClearInput i) :
    GrowsFrom s.duck.messages (step w s i).1.duck.messages := by
  cases i with
  | ctrlR => exact runLastStep_grows w s h
  | ctrlS => exact growsFrom_refl h
  | line t k =>
    simp only [step]
    cases hd : dispatch t with
    | empty =>
      by_cases hp : s.pendingCommand.getD "" ≠ ""
      · simp only [if_pos hp]
        exact runLastStep_grows w s h
      · simp only [if_neg hp]
        by_cases ho : s.lastShellOutput
        · simp only [if_pos ho]
          exact explainStep_grows w s h
        · simp only [if_neg ho]
          exact growsFrom_refl h
    | runCmd => exact runLastStep_grows w s h
    | clear => exact absurd (by simpa [isClearInput] using hd) hnc
    | meta => exact growsFrom_refl h
    | poll stripped => exact pollStep_grows w s stripped k h
    | bang cmd => exact bangStep_grows w s cmd h
    | free stripped => exact freeStep_grows w s stripped h

/-- The pending-command half of the controller invariant: a pending
suggestion is always the (non-empty) last suggested command. -/
def PendingInv (s : UIState) : Prop :=
  ∀ c, s.pendingCommand = some c → s.lastCommand = some c ∧ c ≠ ""

def StateInv (s : UIState) : Prop :=
  MsgInv s.duck.messages ∧ PendingInv s

theorem stateInv_init (w : World) : StateInv (initState w) := by
  constructor
  · exact ⟨w.base, [], rfl, by simp⟩
  · intro c hc
    simp [initState] at hc

theorem runLastStep_stateInv (w : World) (s : UIState) (h : StateInv s) :
    StateInv (runLastStep w s).1 := by
  obtain ⟨hm, hp⟩ := h
  constructor
  · exact msgInv_of_grows hm (runLastStep_grows w s hm)
  · simp only [runLastStep]
    cases s.lastCommand with
    | none => exact hp
    | some cmd =>
      by_cases hc : cmd = ""
      · simp only [if_pos hc]
        exact hp
      · simp only [if_neg hc]
        intro c hcc
        simp at hcc

theorem explainStep_stateInv (w : World) (s : UIState) (h : StateInv s) :
    StateInv (explainStep w s).1 := by
  obtain ⟨hm, hp⟩ := h
  refine ⟨msgInv_of_grows hm (explainStep_grows w s hm), ?_⟩
  simp only [explainStep]
  by_cases hl : s.duck.messages.length < 2
  · simp only [if_pos hl]
    exact hp
  · simp only [if_neg hl]
    cases s.duck.messages.getLast? with
    | none => exact hp
    | some last =>
      by_cases hr : last.role ≠ Role.assistant
      · simp only [if_pos hr]
        exact hp
      · simp only [if_neg hr]
        exact hp

theorem stateInv_step (w : World) (s : UIState) (i : Input) (h : StateInv s) :
    StateInv (step w s i).1 := by
  cases i with
  | ctrlR => exact runLastStep_stateInv w s h
  | ctrlS => exact h
  | line t k =>
    obtain ⟨hm, hp⟩ := h
    simp only [step]
    cases hd : dispatch t with
    | empty =>
      by_cases hpc : s.pendingCommand.getD "" ≠ ""
      · simp only [if_pos hpc]
        exact runLastStep_stateInv w s ⟨hm, hp⟩
      · simp only [if_neg hpc]
        by_cases ho : s.lastShellOutput
        · simp only [if_pos ho]
          exact explainStep_stateInv w s ⟨hm, hp⟩
        · simp only [if_neg ho]
          exact ⟨hm, hp⟩
    | runCmd => exact runLastStep_stateInv w s ⟨hm, hp⟩
    | clear =>
      constructor
      · obtain ⟨c, rest, he, -⟩ := hm
        exact ⟨c, [], by simp [clearStep, clear_history, he], by simp⟩
      · intro c hc
        simp [clearStep] at hc
    | meta => exact ⟨hm, hp⟩
    | poll stripped =>
      refine ⟨msgInv_of_grows hm (pollStep_grows w s stripped k hm), ?_⟩
      intro c hc
      obtain ⟨hl, hpc, -⟩ := pollStep_fields w s stripped k
      rw [hpc] at hc
      rw [hl]
      exact hp c hc
    | bang cmd =>
      refine ⟨msgInv_of_grows hm (bangStep_grows w s cmd hm), ?_⟩
      intro c hc
      simp [bangStep] at hc
    | free stripped =>
      refine ⟨msgInv_of_grows hm (freeStep_grows w s stripped hm), ?_⟩
      intro c hc
      simp only [freeStep] at hc ⊢
      refine ⟨hc, ?_⟩
      simp only [send_prompt] at hc
      exact extract_command_ne_empty (by simpa using hc)

theorem reachable_stateInv (w : World) {s : UIState} (h : Reachable w s) :
    StateInv s := by
  induction h with
  | init => exact stateInv_init w
  | next s i _ ih => exact stateInv_step w s i ih

/-! ## Concrete fixtures used by witnesses and counterexamples -/

/-- A subprocess oracle where every command produces no output and exits 0. -/
def os0 : String → ProcOutcome := fun _ => ⟨"", "", some 0⟩

/-- A concrete world: a model that always replies `ok`, the silent
subprocess oracle, no crumbs. -/
def w0 : World :=
  { model := fun _ => "ok", os := os0, crumbs := [], base := "base",
    stream := fun _ => "" }

theorem clear_history_eq_take (msgs : List Msg) :
    clear_history msgs = msgs.take 1 := by
  cases msgs <;> simp [clear_history]

theorem zip_append_of_le {α β : Type} :
    ∀ (l : List α) (args extra : List β),
      l.length ≤ args.length → l.zip (args ++ extra) = l.zip args := by
  intro l
  induction l with
  | nil => intro args extra h; simp
  | cons x xs ih =>
    intro args extra h
    cases args with
    | nil => simp at h
    | cons a as =>
      simp only [List.cons_append, List.zip_cons_cons]
      rw [ih as extra (by simpa using h)]

/-! ## Claims -/

/-- C10: whenever the Command Extractor returns a command, that command is
a non-empty single line: it contains no newline (only one collected line
is kept, taken from the line split) and no semicolon (the line is
truncated at its first semicolon), and a command that becomes empty after
truncation is reported as none rather than as an empty string. -/
theorem extract_command_single_atomic (content c : String)
    (h : extract_command content = some c) :
    c ≠ "" ∧ (';' : Char) ∉ c.toList ∧ ('\n' : Char) ∉ c.toList := by
  obtain ⟨c₀, hl, hf⟩ := extract_command_some_shape h
  obtain ⟨line, hline, hc₀⟩ := extractLoop_some _ _ _ hl
  refine ⟨finishCommand_some_ne_empty hf, finishCommand_some_no_semi hf, ?_⟩
  intro hmem
  have h1 : ('\n' : Char) ∈ c₀.toList := finishCommand_some_sub hf hmem
  have h2 : ('\n' : Char) ∈ line.toList := by
    rw [hc₀] at h1
    exact mem_pyStrip_sub h1
  exact mem_responseLines_no_newline hline h2

/-- C10 witness: the single-line reply `ls -la` extracts to itself and
satisfies the single-atomic-command shape. -/
theorem extract_command_single_atomic_check :
    extract_command "ls -la" = some "ls -la" ∧
      ("ls -la" : String) ≠ "" ∧ (';' : Char) ∉ ("ls -la" : String).toList ∧
        ('\n' : Char) ∉ ("ls -la" : String).toList :=
  ⟨by decide, extract_command_single_atomic "ls -la" "ls -la" (by decide)⟩

/-- C1 counterexample: a response that is a single fenced block with the
two non-empty lines `ls -la` and `pwd` extracts to `ls -la` alone, not to
the two lines joined by a newline as the claim (multi-line variant)
states. -/
theorem extract_fenced_multiline_refuted :
    extract_command "```\nls -la\npwd\n```" = some "ls -la" ∧
      extract_command "```\nls -la\npwd\n```" ≠ some "ls -la\npwd" :=
  ⟨by decide, by decide⟩

/-- C1 (amended): for a response text that is a single fenced code block
whose body lines are non-empty and are not fence markers, the extractor
returns only the first body line — trimmed and truncated at its first
semicolon, none if that truncation leaves nothing — with the fence-marker
lines excluded; the remaining body lines are discarded rather than joined. -/
theorem extract_fenced_block_first_line (content m : String) (mid : List String)
    (hlines : responseLines content = "```" :: (m :: mid) ++ ["```"])
    (hne : ∀ l ∈ m :: mid,
      pyStrip l ≠ "" ∧ pyStartsWith (pyStrip l) "```" = false) :
    extract_command content = finishCommand (pyStrip m) := by
  obtain ⟨hm1, hm2⟩ := hne m (List.mem_cons_self m mid)
  have h0 : ∀ (rest : List String),
      extractLoop ("```" :: rest) false = extractLoop rest true := fun _ => rfl
  have h1 : extractLoop (m :: (mid ++ ["```"])) true = some (pyStrip m) := by
    simp only [extractLoop]
    rw [if_neg (by simp [hm2]), if_pos hm1]
  simp only [extract_command, hlines, List.cons_append]
  rw [h0, h1]

/-- C1 witness: the one-line fenced block `ls` extracts to the processed
first body line. -/
theorem extract_fenced_block_first_line_check :
    responseLines "```\nls\n```" = "```" :: ("ls" :: []) ++ ["```"] ∧
      extract_command "```\nls\n```" = finishCommand (pyStrip "ls") :=
  ⟨by decide,
   extract_fenced_block_first_line "```\nls\n```" "ls" [] (by decide) (by decide)⟩

/-- C7 counterexample: for the fence-free reply
`ls -la; rm x` followed by prose, the extractor returns the first line
truncated at its semicolon, not the first line exactly as the claim
states. -/
theorem first_line_semicolon_refuted :
    extract_command "ls -la; rm x\nThis lists files." = some "ls -la" ∧
      extract_command "ls -la; rm x\nThis lists files." ≠ some "ls -la; rm x" :=
  ⟨by decide, by decide⟩

/-- C7 (amended): when the first line of the (stripped) response is
non-empty and is not a fence marker, the extractor returns that first line
trimmed and truncated at its first semicolon (none if that leaves
nothing), ignoring all subsequent lines. -/
theorem extract_free_text_first_line (content first : String) (rest : List String)
    (hlines : responseLines content = first :: rest)
    (h1 : pyStrip first ≠ "")
    (h2 : pyStartsWith (pyStrip first) "```" = false) :
    extract_command content = finishCommand (pyStrip first) := by
  simp only [extract_command, hlines, extractLoop]
  rw [if_neg (by simp [h2]), if_pos h1]

/-- C7 witness: `ls -la` followed by prose extracts to the processed first
line. -/
theorem extract_free_text_first_line_check :
    responseLines "ls -la\nThis lists files." = "ls -la" :: ["This lists files."] ∧
      extract_command "ls -la\nThis lists files." = finishCommand (pyStrip "ls -la") :=
  ⟨by decide,
   extract_free_text_first_line "ls -la\nThis lists files." "ls -la"
     ["This lists files."] (by decide) (by decide) (by decide)⟩

/-- C4: running a non-empty shell command as part of an interactive turn
appends exactly two messages to the history, leaving all earlier messages
unchanged: a user message `!` + command, then an assistant message
composed per `foldContentSpec` — trimmed stdout if non-empty, `[stderr]`
plus newline plus trimmed stderr if non-empty, an exit-status annotation
if the return code is nonzero, and the no-output marker if none of those
produced text. -/
theorem shell_fold_appends_two_messages (os : String → ProcOutcome) (cmd : String)
    (hist : List Msg) (h : cmd ≠ "") :
    (run_shell_and_print os cmd hist).result = some (run_shell_command os cmd).2 ∧
    (run_shell_and_print os cmd hist).history =
      hist ++ [⟨Role.user, "!" ++ cmd⟩,
        ⟨Role.assistant, foldContentSpec (run_shell_command os cmd).2⟩] := by
  simp [run_shell_and_print, h, fold_shell_output_eq_spec]

/-- C4 witness: `echo hi` under the silent oracle appends the synthetic
user/assistant pair to an empty history. -/
theorem shell_fold_appends_two_messages_check :
    ("echo hi" : String) ≠ "" ∧
      ((run_shell_and_print os0 "echo hi" []).result =
          some (run_shell_command os0 "echo hi").2 ∧
        (run_shell_and_print os0 "echo hi" []).history =
          [] ++ [⟨Role.user, "!echo hi"⟩,
            ⟨Role.assistant, foldContentSpec (run_shell_command os0 "echo hi").2⟩]) :=
  ⟨by decide, shell_fold_appends_two_messages os0 "echo hi" [] (by decide)⟩

/-- C2 counterexample: `run_shell_command` on the empty command does spawn
a process and (under an oracle where the empty command exits 0) returns
return code 0, not the claimed `-1` sentinel; the caller-side short
circuit in `run_shell_and_print` produces no ShellResult at all. -/
theorem empty_command_sentinel_refuted :
    (run_shell_command os0 "").1 = true ∧
    (run_shell_command os0 "").2.returncode = 0 ∧
    ¬ (run_shell_command os0 "").2.returncode = -1 ∧
    (run_shell_and_print os0 "" []).result = none := by decide

/-- C2 (amended): the empty-command short circuit lives in
`run_shell_and_print`, which returns without spawning a process, without
constructing any ShellResult (printing a `No command provided.` notice)
and without touching the history; `run_shell_command` itself has no
empty-command case and no `-1` sentinel. -/
theorem empty_command_short_circuit (os : String → ProcOutcome) (hist : List Msg) :
    run_shell_and_print os "" hist = ⟨false, none, hist⟩ := by
  simp [run_shell_and_print]

theorem dispatch_run_lit : dispatch "/run" = Dispatch.runCmd := by decide

/-- C8: the `run last` action (`/run`) in a state with no suggested
command leaves the controller state unchanged and emits the
nothing-to-run notice, and the action is idempotent there: a second
invocation produces the same notice and the same unchanged state. -/
theorem run_last_without_suggestion_idempotent (w : World) (s : UIState)
    (k k' : Nat) (h : s.lastCommand = none) :
    step w s (Input.line "/run" k) =
      (s, [Event.notice "No suggested command available yet."]) ∧
    step w (step w s (Input.line "/run" k)).1 (Input.line "/run" k') =
      (s, [Event.notice "No suggested command available yet."]) := by
  have hgen : ∀ j : Nat, step w s (Input.line "/run" j) =
      (s, [Event.notice "No suggested command available yet."]) := by
    intro j
    simp only [step, dispatch_run_lit, runLastStep, h]
  refine ⟨hgen k, ?_⟩
  rw [hgen k]
  exact hgen k'

/-- C8 witness: from the initial state (which has no suggested command),
two `/run` inputs in a row both yield the notice and the unchanged
state. -/
theorem run_last_without_suggestion_idempotent_check :
    (initState w0).lastCommand = none ∧
      (step w0 (initState w0) (Input.line "/run" 0) =
          ((initState w0), [Event.notice "No suggested command available yet."]) ∧
        step w0 (step w0 (initState w0) (Input.line "/run" 0)).1 (Input.line "/run" 0) =
          ((initState w0), [Event.notice "No suggested command available yet."])) :=
  ⟨rfl, run_last_without_suggestion_idempotent w0 (initState w0) 0 0 rfl⟩

/-- C5: in every reachable controller state, a pending command (a single
optional field, so at most one exists) always equals the last suggested
command; a free-text turn executes nothing and overwrites both pending and
last with the newly extracted command (superseding any previous
suggestion); and any input that begins a run (`/run`, `:run`, Ctrl-R is
the same code path, or `!cmd`) leaves the pending command cleared. -/
theorem pending_command_lifecycle_invariant (w : World) (s : UIState)
    (h : Reachable w s) :
    (∀ c, s.pendingCommand = some c → s.lastCommand = some c) ∧
    (∀ t stripped k, dispatch t = Dispatch.free stripped →
      (step w s (Input.line t k)).2 = [Event.prompted stripped false] ∧
      (step w s (Input.line t k)).1.pendingCommand =
        (send_prompt w s.duck stripped true).2.command ∧
      (step w s (Input.line t k)).1.lastCommand =
        (send_prompt w s.duck stripped true).2.command) ∧
    (∀ t k, (dispatch t = Dispatch.runCmd ∨ ∃ c, dispatch t = Dispatch.bang c) →
      (step w s (Input.line t k)).1.pendingCommand = none) := by
  obtain ⟨-, hp⟩ := reachable_stateInv w h
  refine ⟨fun c hc => (hp c hc).1, ?_, ?_⟩
  · intro t stripped k hd
    simp [step, hd, freeStep]
  · intro t k hd
    rcases hd with hd | ⟨c, hd⟩
    · simp only [step, hd, runLastStep]
      cases hl : s.lastCommand with
      | none =>
        cases hpc : s.pendingCommand with
        | none => rfl
        | some c' =>
          rw [(hp c' hpc).1] at hl
          simp at hl
      | some cmd =>
        by_cases hc0 : cmd = ""
        · simp only [if_pos hc0]
          cases hpc : s.pendingCommand with
          | none => rfl
          | some c' =>
            obtain ⟨hl', hne⟩ := hp c' hpc
            rw [hl] at hl'
            exact absurd (hc0 ▸ (Option.some.inj hl')) (Ne.symm hne)
        · simp only [if_neg hc0]
    · simp only [step, hd, bangStep]

/-- C5 witness: in the initial state, `/run` leaves no pending command. -/
theorem pending_command_lifecycle_invariant_check :
    (step w0 (initState w0) (Input.line "/run" 0)).1.pendingCommand = none :=
  (pending_command_lifecycle_invariant w0 (initState w0) Reachable.init).2.2
    "/run" 0 (Or.inl (by decide))

/-- C6: in every reachable state the history starts with the unique
system message; every non-clear operation only rewrites the system-message
content in place and appends non-system messages (no reorder, no delete);
and `/clear` (or `/reset`) truncates the history to the single system
message while resetting last command, pending command and the
output-available flag. -/
theorem system_message_history_invariant (w : World) (s : UIState)
    (h : Reachable w s) :
    MsgInv s.duck.messages ∧
    (∀ i : Input, ¬ isClearInput i →
      GrowsFrom s.duck.messages (step w s i).1.duck.messages) ∧
    (∀ t k, dispatch t = Dispatch.clear →
      (step w s (Input.line t k)).1 =
        { duck := { systemPrompt := s.duck.systemPrompt,
                    messages := s.duck.messages.take 1 },
          lastCommand := none, pendingCommand := none,
          lastShellOutput := false }) := by
  obtain ⟨hm, -⟩ := reachable_stateInv w h
  refine ⟨hm, fun i hi => step_grows w s i hm hi, ?_⟩
  intro t k hd
  simp only [step, hd, clearStep, clear_history_eq_take]

/-- C6 witness: clearing from the initial state truncates to the single
system message and resets the three lifecycle fields. -/
theorem system_message_history_invariant_check :
    (step w0 (initState w0) (Input.line "/clear" 0)).1 =
      { duck := { systemPrompt := (initState w0).duck.systemPrompt,
                  messages := (initState w0).duck.messages.take 1 },
        lastCommand := none, pendingCommand := none, lastShellOutput := false } :=
  (system_message_history_invariant w0 (initState w0) Reachable.init).2.2
    "/clear" 0 (by decide)

/-- C3 counterexample: after the input `!` (which sets the
output-available flag without appending any history), an empty input does
not clear the flag and sends no analysis prompt — it only prints the
`No shell output to explain yet.` notice — contradicting the claim that
empty input with output available always explains and clears the flag. -/
theorem empty_input_explain_flag_refuted :
    ((step w0 (initState w0) (Input.line "!" 0)).1.pendingCommand = none) ∧
    ((step w0 (initState w0) (Input.line "!" 0)).1.lastShellOutput = true) ∧
    ((step w0 (step w0 (initState w0) (Input.line "!" 0)).1
        (Input.line "" 0)).1.lastShellOutput = true) ∧
    ((step w0 (step w0 (initState w0) (Input.line "!" 0)).1
        (Input.line "" 0)).2 =
      [Event.notice "No shell output to explain yet."]) := by
  decide

/-- C3 (amended): on empty input — when a (consistent, non-empty) pending
command is set, it is run, folded into history, pending/last clear and the
output-available flag is set; when no pending command is set, the flag is
set, and the history ends with an assistant message (length at least two),
the explain path runs with suggestion output suppressed and clears the
flag; when neither pending command nor flag is set, the nothing-to-run
notice is printed and the state is unchanged.  (When the flag is set but
the history does not end with an assistant message, the code only prints a
notice and leaves the flag set — the corner the counterexample exhibits.) -/
theorem empty_input_dispatch_behavior (w : World) (s : UIState) (t : String)
    (k : Nat) (ht : dispatch t = Dispatch.empty) :
    (∀ c, c ≠ "" → s.pendingCommand = some c → s.lastCommand = some c →
      step w s (Input.line t k) =
        ({ s with
            duck := { s.duck with messages := (run_shell_and_print w.os c s.duck.messages).history },
            lastShellOutput := true, pendingCommand := none, lastCommand := none },
         [Event.executed c])) ∧
    (s.pendingCommand = none → s.lastShellOutput = true →
      ∀ m, s.duck.messages.getLast? = some m → m.role = Role.assistant →
        2 ≤ s.duck.messages.length →
        step w s (Input.line t k) =
          ({ s with
              duck := (send_prompt w s.duck (explainRequest m.content) true).1,
              lastShellOutput := false },
           [Event.prompted (explainRequest m.content) true])) ∧
    (s.pendingCommand = none → s.lastShellOutput = false →
      step w s (Input.line t k) = (s, [Event.notice "Nothing to run yet."])) := by
  refine ⟨?_, ?_, ?_⟩
  · intro c hc hpc hlc
    simp only [step, ht, hpc, Option.getD_some, if_pos hc, runLastStep, hlc,
      if_neg hc]
  · intro hpc hflag m hlast hrole hlen
    have hnl : ¬ s.duck.messages.length < 2 := by omega
    simp only [step, ht, hpc, Option.getD_none, ne_eq, not_true_eq_false,
      if_false, hflag, if_true, explainStep, if_neg hnl, hlast, hrole]
  · intro hpc hflag
    simp [step, ht, hpc, hflag]

/-- C3 witness: in a state with pending = last = `ls`, empty input runs
the command, folds it, clears pending/last and sets the flag. -/
theorem empty_input_dispatch_behavior_check :
    step w0
        { duck := { systemPrompt := "base", messages := [⟨Role.system, "base"⟩] },
          lastCommand := some "ls", pendingCommand := some "ls",
          lastShellOutput := false }
        (Input.line "" 0) =
      ({ duck := ⟨"base", (run_shell_and_print w0.os "ls" [⟨Role.system, "base"⟩]).history⟩,
          lastCommand := none, pendingCommand := none, lastShellOutput := true },
       [Event.executed "ls"]) :=
  (empty_input_dispatch_behavior w0
      { duck := { systemPrompt := "base", messages := [⟨Role.system, "base"⟩] },
        lastCommand := some "ls", pendingCommand := some "ls",
        lastShellOutput := false }
      "" 0 (by decide)).1 "ls" (by decide) rfl rfl

/-- C9: the spec-modelled Placeholder Substitution maps the i-th distinct
variable name to the i-th positional argument with every occurrence of a
mapped name receiving the same value (the repeated `src` in the first
example), ignores excess arguments, and falls back for unmapped names to
the environment variable of that name when set, leaving the token literal
otherwise. -/
theorem placeholder_substitution_properties :
    (substituteTemplate (fun _ => none)
        "cp $\x7bsrc\x7d $\x7bdst\x7d $\x7bsrc\x7d.bak" ["a.txt", "b.txt"] =
      "cp a.txt b.txt a.txt.bak") ∧
    (substituteTemplate (fun n => if n = "HOME_DIR" then some "/x" else none)
        "echo $HOME_DIR" [] = "echo /x") ∧
    (substituteTemplate (fun _ => none) "echo $HOME_DIR" [] = "echo $HOME_DIR") ∧
    (∀ (env : String → Option String) (template : String) (args extra : List String),
      (templateVars template).length ≤ args.length →
      substituteTemplate env template (args ++ extra) =
        substituteTemplate env template args) := by
  refine ⟨by decide, by decide, by decide, ?_⟩
  intro env template args extra h
  simp only [substituteTemplate, templateVars]
  rw [zip_append_of_le _ _ _ (by simpa [templateVars] using h)]

/-- C9 witness: an excess second argument for a one-variable template is
ignored. -/
theorem placeholder_substitution_properties_check :
    substituteTemplate (fun _ => none) "echo $A" (["x"] ++ ["y"]) =
      substituteTemplate (fun _ => none) "echo $A" ["x"] :=
  placeholder_substitution_properties.2.2.2 (fun _ => none) "echo $A" ["x"] ["y"]
    (by decide)

end Ducky
